import Mathlib

/-!
Shallow embedding of `rebuild_camera_bundles.py`.

The script discovers regional files `Camera_Database_*.json` (excluding names
containing `Bundle`), extracts `feeds[0].staticAlerts` from each in ascending
filename order with per-file fail-soft error handling, concatenates the
records, writes an unsorted bundle, sorts a copy by the uppercased
`(state, city, street)` key and writes a sorted bundle.  The top-level entry
point exits 0 on success and 1 on an uncaught exception.

JSON documents are modelled by `JsonValue`; the dynamic Python operations the
script applies to them (`in`, subscription, `len`, iteration by `extend`,
`dict.get`, `str.upper`) are modelled by `Except Unit` functions where
`.error ()` stands for a raised exception.  Python's stable `sorted` is
modelled by `List.insertionSort` (any stable sort agrees with it
extensionally); `str.upper` is modelled by its character-wise ASCII
action `pyUpper`.
-/

namespace CameraBundles

/-- A JSON value as produced by `json.load`: objects are key/value lists with
distinct keys (in document order), numbers are modelled by integers. -/
inductive JsonValue where
  | null : JsonValue
  | bool (b : Bool) : JsonValue
  | num (n : Int) : JsonValue
  | str (s : String) : JsonValue
  | arr (elems : List JsonValue) : JsonValue
  | obj (fields : List (String × JsonValue)) : JsonValue

/-- First binding of key `k` in an object's field list (Python dicts from
`json.load` have unique keys, so first = only). -/
def lookupField : List (String × JsonValue) → String → Option JsonValue
  | [], _ => none
  | (k', v) :: rest, k => if k' = k then some v else lookupField rest k

/-- `needle` occurs as a contiguous substring of `hay` (Python's `in` on
strings), on character lists. -/
def containsSub (needle : List Char) : List Char → Bool
  | [] => needle.isEmpty
  | c :: rest => needle.isPrefixOf (c :: rest) || containsSub needle rest

/-- Python's strict comparison of strings: lexicographic by code point,
on character lists. -/
def charListLT : List Char → List Char → Bool
  | [], [] => false
  | [], _ :: _ => true
  | _ :: _, [] => false
  | a :: as, b :: bs => decide (a < b) || (decide (a = b) && charListLT as bs)

/-- Python `a < b` on strings. -/
def strLT (a b : String) : Bool := charListLT a.data b.data

/-- Python `a <= b` on strings (the non-strict closure of `strLT`). -/
def strLE (a b : String) : Bool := strLT a b || a == b

/-- Python `str.upper()` restricted to its ASCII action, character by
character. -/
def pyUpper (s : String) : String := ⟨s.data.map Char.toUpper⟩

/-- Python `str.replace(old, new)` for a nonempty `old`: scan left to
right, replacing non-overlapping occurrences.  The recursion is structural
on a fuel bound of the input length. -/
def replaceAux (pat repl : List Char) : Nat → List Char → List Char
  | _, [] => []
  | 0, cs => cs
  | fuel + 1, c :: rest =>
    if !pat.isEmpty && pat.isPrefixOf (c :: rest) then
      repl ++ replaceAux pat repl fuel (List.drop (pat.length - 1) rest)
    else c :: replaceAux pat repl fuel rest

/-- Python `s.replace(pat, repl)` (for the nonempty pattern the script
uses). -/
def pyReplace (s pat repl : String) : String :=
  ⟨replaceAux pat.data repl.data s.data.length s.data⟩

/-- Python `v == k` for a string `k`: only an equal string compares equal
(no JSON value of another type is `==` to a `str`). -/
def pyEqStr (k : String) : JsonValue → Bool
  | .str s => s == k
  | _ => false

/-- Python `k in v` for a string key `k`: key membership for dicts, element
membership for lists, substring test for strings; `TypeError` otherwise. -/
def pyIn (k : String) : JsonValue → Except Unit Bool
  | .obj fields => .ok (lookupField fields k).isSome
  | .arr elems => .ok (elems.any (pyEqStr k))
  | .str s => .ok (containsSub k.data s.data)
  | _ => .error ()

/-- Python `v[k]` for a string key `k`: dict lookup (`KeyError` when absent);
`TypeError` on any other value. -/
def pySubscript (v : JsonValue) (k : String) : Except Unit JsonValue :=
  match v with
  | .obj fields =>
    match lookupField fields k with
    | some x => .ok x
    | none => .error ()
  | _ => .error ()

/-- Python `len(v)`: defined for dicts, lists and strings; `TypeError`
otherwise. -/
def pyLen : JsonValue → Except Unit Nat
  | .obj fields => .ok fields.length
  | .arr elems => .ok elems.length
  | .str s => .ok s.length
  | _ => .error ()

/-- Python `v[0]`: first element of a list, first character of a string
(as a one-character string); `KeyError`/`TypeError` otherwise (a dict from
JSON has no integer key `0`). -/
def pyIndex0 : JsonValue → Except Unit JsonValue
  | .arr (x :: _) => .ok x
  | .arr [] => .error ()
  | .str s =>
    match s.data with
    | c :: _ => .ok (.str (String.mk [c]))
    | [] => .error ()
  | _ => .error ()

/-- The sequence Python iterates when `list.extend(v)` is called: the
elements of a list, the characters of a string (as one-character strings),
the keys of a dict; `TypeError` for non-iterables. -/
def pyIter : JsonValue → Except Unit (List JsonValue)
  | .arr elems => .ok elems
  | .str s => .ok (s.data.map fun c => .str (String.mk [c]))
  | .obj fields => .ok (fields.map fun kv => .str kv.1)
  | _ => .error ()

/-- Outcome of the per-file `try` block (source lines 34-53): `added` when
`all_cameras.extend(cameras)` ran (and the region was then recorded as
processed), the two warning branches, and `loadError` for any exception
caught by the `except` clause. -/
inductive FileResult where
  | added (records : List JsonValue) : FileResult
  | noStaticAlerts : FileResult
  | noFeeds : FileResult
  | loadError : FileResult

/-- Lines 39-49 of the source run on a parsed document, with every raised
exception routed to the `except` handler:
`if 'feeds' in data and len(data['feeds']) > 0:` then
`feed = data['feeds'][0]`, `if 'staticAlerts' in feed:` then
`cameras = feed['staticAlerts']; all_cameras.extend(cameras)`. -/
def extractData (data : JsonValue) : FileResult :=
  match pyIn "feeds" data with
  | .error _ => .loadError
  | .ok false => .noFeeds
  | .ok true =>
    match pySubscript data "feeds" with
    | .error _ => .loadError
    | .ok feedsVal =>
      match pyLen feedsVal with
      | .error _ => .loadError
      | .ok n =>
        if n > 0 then
          match pyIndex0 feedsVal with
          | .error _ => .loadError
          | .ok feed =>
            match pyIn "staticAlerts" feed with
            | .error _ => .loadError
            | .ok false => .noStaticAlerts
            | .ok true =>
              match pySubscript feed "staticAlerts" with
              | .error _ => .loadError
              | .ok cameras =>
                match pyIter cameras with
                | .error _ => .loadError
                | .ok records => .added records
        else .noFeeds

/-- A file in the working directory: its name and its parsed content
(`none` models an open/`json.load` failure, i.e. an exception raised before
extraction begins). -/
structure InputFile where
  name : String
  content : Option JsonValue

/-- One candidate file through the `try`/`except` of the loop body. -/
def processFile (f : InputFile) : FileResult :=
  match f.content with
  | none => .loadError
  | some data => extractData data

/-- The records a file contributes to `all_cameras` (empty unless the
`extend` branch ran). -/
def extractRecords (f : InputFile) : List JsonValue :=
  match processFile f with
  | .added records => records
  | _ => []

/-- `Path(name).stem`: the final component without its suffix, where the
suffix is `name[i:]` for the last `.` at position `i` with `0 < i <
len(name) - 1`, and empty otherwise. -/
def pathStem (name : String) : String :=
  let cs := name.data
  match cs.reverse.findIdx? (· = '.') with
  | none => name
  | some j =>
    let i := cs.length - 1 - j
    if 0 < i ∧ i < cs.length - 1 then String.mk (cs.take i) else name

/-- `Path(regional_file).stem.replace('Camera_Database_', '')`. -/
def regionNameOf (name : String) : String :=
  pyReplace (pathStem name) "Camera_Database_" ""

/-- A line printed by the loop body, one constructor per `print` branch. -/
inductive LogEvent where
  | added (region : String) (count : Nat) : LogEvent
  | noStaticAlerts (region : String) : LogEvent
  | noFeeds (region : String) : LogEvent
  | loadError (region : String) : LogEvent

/-- Accumulators of the load loop: `all_cameras`, `regions_processed`, and
the diagnostics printed so far. -/
structure LoopState where
  allCameras : List JsonValue
  regionsProcessed : List String
  logs : List LogEvent

/-- One iteration of `for regional_file in sorted(regional_files):`. -/
def loopStep (st : LoopState) (f : InputFile) : LoopState :=
  let region := regionNameOf f.name
  match processFile f with
  | .added records =>
    ⟨st.allCameras ++ records, st.regionsProcessed ++ [region],
      st.logs ++ [.added region records.length]⟩
  | .noStaticAlerts => ⟨st.allCameras, st.regionsProcessed, st.logs ++ [.noStaticAlerts region]⟩
  | .noFeeds => ⟨st.allCameras, st.regionsProcessed, st.logs ++ [.noFeeds region]⟩
  | .loadError => ⟨st.allCameras, st.regionsProcessed, st.logs ++ [.loadError region]⟩

/-- `glob.glob('Camera_Database_*.json')` membership: the name starts with
`Camera_Database_` and the remainder ends with `.json`. -/
def matchesGlob (name : String) : Bool :=
  "Camera_Database_".data.isPrefixOf name.data
    && ".json".data.isSuffixOf (name.data.drop 16)

/-- Lines 19-22: glob over the directory listing, then
`[f for f in regional_files if 'Bundle' not in f]`. -/
def candidateFiles (listing : List InputFile) : List InputFile :=
  (listing.filter fun f => matchesGlob f.name).filter
    fun f => !containsSub "Bundle".data f.name.data

/-- Ordering of candidates by filename, as `sorted(regional_files)`
compares them (code-point lexicographic). -/
def fileNameLE (a b : InputFile) : Prop := strLE a.name b.name = true

instance : DecidableRel fileNameLE := fun a b =>
  inferInstanceAs (Decidable (strLE a.name b.name = true))

/-- The candidates in the order the loop visits them:
`sorted(regional_files)` (stable sort modelled by insertion sort). -/
def sortedCandidates (listing : List InputFile) : List InputFile :=
  (candidateFiles listing).insertionSort fileNameLE

/-- The final loop state of a run over a directory listing. -/
def loopResult (listing : List InputFile) : LoopState :=
  (sortedCandidates listing).foldl loopStep ⟨[], [], []⟩

/-- `all_cameras` after the load loop. -/
def allCamerasOf (listing : List InputFile) : List JsonValue :=
  (loopResult listing).allCameras

/-- `x.get(k, '').upper()` on an accumulated record `x` (source lines
83-86): `.get` exists only on dicts (`AttributeError` otherwise); a missing
key defaults to `''`; `.upper()` exists only on strings, so a present
non-string value raises. -/
def pyGetUpper (x : JsonValue) (k : String) : Except Unit String :=
  match x with
  | .obj fields =>
    match lookupField fields k with
    | some (.str s) => .ok (pyUpper s)
    | some _ => .error ()
    | none => .ok ""
  | _ => .error ()

/-- The sort key tuple `(state, city, street)`, uppercased. -/
abbrev SortKey := String × String × String

/-- The key function of the `sorted` call: the three components are
evaluated left to right, the first exception propagating. -/
def sortKey (x : JsonValue) : Except Unit SortKey :=
  match pyGetUpper x "state" with
  | .error e => .error e
  | .ok s =>
    match pyGetUpper x "city" with
    | .error e => .error e
    | .ok c =>
      match pyGetUpper x "street" with
      | .error e => .error e
      | .ok t => .ok (s, c, t)

/-- Python's lexicographic (non-strict) comparison of two key tuples. -/
def keyLE (a b : SortKey) : Bool :=
  strLT a.1 b.1
    || (a.1 == b.1
      && (strLT a.2.1 b.2.1
        || (a.2.1 == b.2.1 && strLE a.2.2 b.2.2)))

/-- CPython's `sorted(xs, key=f)` first computes `f` on every element in
order (propagating the first exception), then stably sorts the decorated
list. -/
def keyedCameras : List JsonValue → Except Unit (List (SortKey × JsonValue))
  | [] => .ok []
  | c :: cs =>
    match sortKey c with
    | .error e => .error e
    | .ok k =>
      match keyedCameras cs with
      | .error e => .error e
      | .ok rest => .ok ((k, c) :: rest)

/-- Order on decorated elements: compare keys only. -/
def keyPairLE (a b : SortKey × JsonValue) : Prop := keyLE a.1 b.1 = true

instance : DecidableRel keyPairLE := fun a b =>
  inferInstanceAs (Decidable (keyLE a.1 b.1 = true))

/-- Lines 81-88: `sorted(all_cameras, key=...)`, modelled as a stable sort
of the key-decorated list.  An exception from the key function propagates
out of `rebuild_bundles`. -/
def sortCameras (cams : List JsonValue) : Except Unit (List JsonValue) :=
  match keyedCameras cams with
  | .error e => .error e
  | .ok keyed => .ok ((keyed.insertionSort keyPairLE).map Prod.snd)

/-- Description field of the unsorted bundle's feed. -/
def unsortedDescription : String :=
  "Community-sourced camera locations for Dukes R8 app"

/-- Description field of the sorted bundle's feed. -/
def sortedDescription : String :=
  "Community-sourced camera locations for Dukes R8 app (sorted)"

/-- The fixed feed envelope wrapped around an alert sequence. -/
def mkBundle (description : String) (alerts : List JsonValue) : JsonValue :=
  .obj [("feeds", .arr [.obj [
    ("id", .str "dukes-r8-camera-database"),
    ("name", .str "Dukes R8 Camera Database"),
    ("description", .str description),
    ("type", .str "camera"),
    ("refreshIntervalMinutes", .num 1440),
    ("staticAlerts", .arr alerts)]])]

/-- Output path of the unsorted bundle. -/
def bundlePath : String := "Camera_Database_Bundle.json"

/-- Output path of the sorted bundle. -/
def sortedBundlePath : String := "Camera_Database_Bundle_Sorted.json"

/-- What one call of `rebuild_bundles` did: the diagnostics of the load
loop, the files written (in order, each written before the next step runs),
and either the function's return value (`len(all_cameras)`) or the
uncaught exception. -/
structure RunTrace where
  logs : List LogEvent
  writes : List (String × JsonValue)
  result : Except Unit Nat

/-- The whole of `rebuild_bundles` on a directory listing.  The unsorted
bundle is written (line 75) before the sort runs (line 81), so a key
exception leaves only the unsorted write behind. -/
def rebuildBundles (listing : List InputFile) : RunTrace :=
  let st := loopResult listing
  let unsortedBundle := mkBundle unsortedDescription st.allCameras
  match sortCameras st.allCameras with
  | .ok sortedCams =>
    ⟨st.logs,
      [(bundlePath, unsortedBundle),
        (sortedBundlePath, mkBundle sortedDescription sortedCams)],
      .ok st.allCameras.length⟩
  | .error e => ⟨st.logs, [(bundlePath, unsortedBundle)], .error e⟩

/-- The `__main__` guard: exit status 0 when `rebuild_bundles` returns,
`exit(1)` from the `except` clause otherwise. -/
def mainExitCode (listing : List InputFile) : Nat :=
  match (rebuildBundles listing).result with
  | .ok _ => 0
  | .error _ => 1

/-- Whether the `__main__` `except` clause printed the fatal-error line
before exiting. -/
def fatalErrorLogged (listing : List InputFile) : Bool :=
  match (rebuildBundles listing).result with
  | .ok _ => false
  | .error _ => true

/-- The key of a record, with a placeholder for records whose key
computation raises (used only to state sortedness; under a successful run
every record's key is `.ok`). -/
def keyD (x : JsonValue) : SortKey :=
  match sortKey x with
  | .ok k => k
  | .error _ => ("", "", "")

/-! ### Concrete example inputs (used by witnesses) -/

/-- A Texas record. -/
def exRecordTX : JsonValue :=
  .obj [("state", .str "tx"), ("city", .str "Austin"), ("street", .str "Main")]

/-- A California record. -/
def exRecordCA : JsonValue :=
  .obj [("state", .str "CA"), ("city", .str "LA"), ("street", .str "1st")]

/-- A record whose `state` is present but a number, not a string. -/
def exRecordBadState : JsonValue := .obj [("state", .num 5)]

/-- A wellformed regional document holding the given alerts value. -/
def exDoc (alerts : JsonValue) : JsonValue :=
  .obj [("feeds", .arr [.obj [("staticAlerts", alerts)]])]

/-- A valid Texas regional file with one record. -/
def exFileTX : InputFile :=
  ⟨"Camera_Database_TX.json", some (exDoc (.arr [exRecordTX]))⟩

/-- A valid California regional file with one record. -/
def exFileCA : InputFile :=
  ⟨"Camera_Database_CA.json", some (exDoc (.arr [exRecordCA]))⟩

/-- A malformed regional file (its parse fails). -/
def exFileBad : InputFile := ⟨"Camera_Database_ZZ.json", none⟩

/-- A regional file whose record has a non-string `state`. -/
def exFileBadState : InputFile :=
  ⟨"Camera_Database_NM.json", some (exDoc (.arr [exRecordBadState]))⟩

/-- A regional file whose `staticAlerts` is the string `"ab"`. -/
def exFileStrAlerts : InputFile :=
  ⟨"Camera_Database_SS.json", some (exDoc (.str "ab"))⟩

/-- A previously written unsorted bundle sitting in the working
directory. -/
def exFileBundle : InputFile :=
  ⟨"Camera_Database_Bundle.json", some (mkBundle unsortedDescription [])⟩

/-- The diagnostic line the loop body prints for a file, given the branch
taken on it. -/
def diagnosticOf (r : FileResult) (region : String) : LogEvent :=
  match r with
  | .added records => .added region records.length
  | .noStaticAlerts => .noStaticAlerts region
  | .noFeeds => .noFeeds region
  | .loadError => .loadError region

/-! ### Supporting lemmas -/

theorem loopStep_allCameras (st : LoopState) (f : InputFile) :
    (loopStep st f).allCameras = st.allCameras ++ extractRecords f := by
  unfold loopStep extractRecords
  cases processFile f <;> simp

theorem foldl_loopStep_allCameras (files : List InputFile) :
    ∀ st : LoopState,
      (files.foldl loopStep st).allCameras
        = st.allCameras ++ (files.map extractRecords).flatten := by
  induction files with
  | nil => intro st; simp
  | cons f rest ih =>
    intro st
    simp only [List.foldl_cons, List.map_cons, List.flatten_cons]
    rw [ih, loopStep_allCameras, List.append_assoc]

theorem loopStep_logs (st : LoopState) (f : InputFile) :
    (loopStep st f).logs
      = st.logs ++ [diagnosticOf (processFile f) (regionNameOf f.name)] := by
  unfold loopStep diagnosticOf
  cases processFile f <;> simp

theorem foldl_loopStep_logs (files : List InputFile) :
    ∀ st : LoopState,
      (files.foldl loopStep st).logs
        = st.logs
          ++ files.map fun f => diagnosticOf (processFile f) (regionNameOf f.name) := by
  induction files with
  | nil => intro st; simp
  | cons f rest ih =>
    intro st
    simp only [List.foldl_cons, List.map_cons]
    rw [ih, loopStep_logs]
    simp

theorem keyedCameras_isOk :
    ∀ {cams : List JsonValue}, (∀ c ∈ cams, ∃ k, sortKey c = .ok k) →
      ∃ keyed, keyedCameras cams = .ok keyed := by
  intro cams
  induction cams with
  | nil => intro _; exact ⟨[], rfl⟩
  | cons c cs ih =>
    intro h
    obtain ⟨k, hk⟩ := h c (List.mem_cons_self c cs)
    obtain ⟨rest, hrest⟩ := ih fun x hx => h x (List.mem_cons_of_mem c hx)
    refine ⟨(k, c) :: rest, ?_⟩
    unfold keyedCameras
    rw [hk, hrest]

theorem allCamerasOf_eq_flatten (listing : List InputFile) :
    allCamerasOf listing = ((sortedCandidates listing).map extractRecords).flatten := by
  unfold allCamerasOf loopResult
  rw [foldl_loopStep_allCameras]
  simp

theorem charListLT_iff (as bs : List Char) :
    charListLT as bs = true ↔ List.Lex (· < ·) as bs := by
  induction as generalizing bs with
  | nil =>
    cases bs with
    | nil =>
      simp only [charListLT, Bool.false_eq_true, false_iff]
      exact List.Lex.not_nil_right _ _
    | cons b bs =>
      simp only [charListLT, true_iff]
      exact List.Lex.nil
  | cons a as ih =>
    cases bs with
    | nil =>
      simp only [charListLT, Bool.false_eq_true, false_iff]
      exact List.Lex.not_nil_right _ _
    | cons b bs =>
      simp only [charListLT, Bool.or_eq_true, Bool.and_eq_true, decide_eq_true_eq]
      constructor
      · rintro (h | ⟨rfl, h⟩)
        · exact List.Lex.rel h
        · exact List.Lex.cons ((ih bs).1 h)
      · intro h
        cases h with
        | rel h => exact Or.inl h
        | cons h => exact Or.inr ⟨rfl, (ih bs).2 h⟩

theorem strLT_iff (a b : String) : strLT a b = true ↔ a < b := by
  rw [strLT, charListLT_iff]
  exact String.lt_iff_toList_lt.symm

theorem strLE_iff (a b : String) : strLE a b = true ↔ a ≤ b := by
  rw [strLE, Bool.or_eq_true, strLT_iff, beq_iff_eq, le_iff_lt_or_eq]

theorem keyLE_eq_true_iff (a b : SortKey) :
    keyLE a b = true
      ↔ a.1 < b.1 ∨ (a.1 = b.1
          ∧ (a.2.1 < b.2.1 ∨ (a.2.1 = b.2.1 ∧ a.2.2 ≤ b.2.2))) := by
  simp [keyLE, Bool.or_eq_true, Bool.and_eq_true, strLT_iff, strLE_iff, beq_iff_eq]

theorem keyLE_refl (a : SortKey) : keyLE a a = true := by
  rw [keyLE_eq_true_iff]
  exact Or.inr ⟨rfl, Or.inr ⟨rfl, le_refl _⟩⟩

theorem keyLE_total (a b : SortKey) : keyLE a b = true ∨ keyLE b a = true := by
  rw [keyLE_eq_true_iff, keyLE_eq_true_iff]
  rcases lt_trichotomy a.1 b.1 with h1 | h1 | h1
  · exact Or.inl (Or.inl h1)
  · rcases lt_trichotomy a.2.1 b.2.1 with h2 | h2 | h2
    · exact Or.inl (Or.inr ⟨h1, Or.inl h2⟩)
    · rcases le_total a.2.2 b.2.2 with h3 | h3
      · exact Or.inl (Or.inr ⟨h1, Or.inr ⟨h2, h3⟩⟩)
      · exact Or.inr (Or.inr ⟨h1.symm, Or.inr ⟨h2.symm, h3⟩⟩)
    · exact Or.inr (Or.inr ⟨h1.symm, Or.inl h2⟩)
  · exact Or.inr (Or.inl h1)

theorem keyLE_trans {a b c : SortKey}
    (hab : keyLE a b = true) (hbc : keyLE b c = true) : keyLE a c = true := by
  rw [keyLE_eq_true_iff] at hab hbc ⊢
  rcases hab with h1 | ⟨h1, hab⟩
  · rcases hbc with h2 | ⟨h2, _⟩
    · exact Or.inl (h1.trans h2)
    · exact Or.inl (h2 ▸ h1)
  · rcases hbc with h2 | ⟨h2, hbc⟩
    · exact Or.inl (h1 ▸ h2)
    · refine Or.inr ⟨h1.trans h2, ?_⟩
      rcases hab with h3 | ⟨h3, hab⟩
      · rcases hbc with h4 | ⟨h4, _⟩
        · exact Or.inl (h3.trans h4)
        · exact Or.inl (h4 ▸ h3)
      · rcases hbc with h4 | ⟨h4, hbc⟩
        · exact Or.inl (h3 ▸ h4)
        · exact Or.inr ⟨h3.trans h4, hab.trans hbc⟩

instance : IsTotal (SortKey × JsonValue) keyPairLE :=
  ⟨fun a b => keyLE_total a.1 b.1⟩

instance : IsTrans (SortKey × JsonValue) keyPairLE :=
  ⟨fun _ _ _ hab hbc => keyLE_trans hab hbc⟩

theorem keyedCameras_map_snd :
    ∀ {cams keyed}, keyedCameras cams = .ok keyed → keyed.map Prod.snd = cams := by
  intro cams
  induction cams with
  | nil => intro keyed h; cases h; rfl
  | cons c cs ih =>
    intro keyed h
    unfold keyedCameras at h
    cases hk : sortKey c with
    | error e => rw [hk] at h; cases h
    | ok k =>
      rw [hk] at h
      cases hrest : keyedCameras cs with
      | error e => rw [hrest] at h; cases h
      | ok rest =>
        rw [hrest] at h
        cases h
        simp [ih hrest]

theorem keyedCameras_mem_ok :
    ∀ {cams keyed}, keyedCameras cams = .ok keyed →
      ∀ p ∈ keyed, sortKey p.2 = .ok p.1 := by
  intro cams
  induction cams with
  | nil => intro keyed h; cases h; intro p hp; cases hp
  | cons c cs ih =>
    intro keyed h
    unfold keyedCameras at h
    cases hk : sortKey c with
    | error e => rw [hk] at h; cases h
    | ok k =>
      rw [hk] at h
      cases hrest : keyedCameras cs with
      | error e => rw [hrest] at h; cases h
      | ok rest =>
        rw [hrest] at h
        cases h
        intro p hp
        rcases List.mem_cons.1 hp with rfl | hp
        · exact hk
        · exact ih hrest p hp

theorem sortCameras_perm {cams out : List JsonValue}
    (h : sortCameras cams = .ok out) : out.Perm cams := by
  unfold sortCameras at h
  cases hk : keyedCameras cams with
  | error e => rw [hk] at h; cases h
  | ok keyed =>
    rw [hk] at h
    cases h
    have hperm : ((keyed.insertionSort keyPairLE).map Prod.snd).Perm (keyed.map Prod.snd) :=
      (List.perm_insertionSort keyPairLE keyed).map Prod.snd
    rwa [keyedCameras_map_snd hk] at hperm

theorem sortCameras_ok_elim {cams out} (h : sortCameras cams = .ok out) :
    ∃ keyed, keyedCameras cams = .ok keyed
      ∧ out = (keyed.insertionSort keyPairLE).map Prod.snd := by
  unfold sortCameras at h
  cases hk : keyedCameras cams with
  | error e => rw [hk] at h; cases h
  | ok keyed =>
    rw [hk] at h
    cases h
    exact ⟨keyed, rfl, rfl⟩

/-! ### Claims -/

/-- C1.  Conservation: the unsorted bundle's `staticAlerts` is exactly the
concatenation, over the candidate files in processing order, of the record
sequences extracted from them (none for a file whose parse failed or whose
`feeds[0].staticAlerts` was absent), so its length is the sum of the
per-file extracted counts. -/
theorem conservation_unsorted_bundle (listing : List InputFile) :
    allCamerasOf listing = ((sortedCandidates listing).map extractRecords).flatten
      ∧ (allCamerasOf listing).length
        = ((sortedCandidates listing).map fun f => (extractRecords f).length).sum := by
  refine ⟨allCamerasOf_eq_flatten listing, ?_⟩
  rw [allCamerasOf_eq_flatten listing, List.length_flatten, List.map_map]
  rfl

/-- C2.  The sorted bundle's `staticAlerts` (when the sort succeeds, i.e.
whenever a sorted bundle is produced at all) is a permutation of the
unsorted bundle's `staticAlerts`: same multiset of records. -/
theorem sorted_perm_unsorted (listing : List InputFile) (out : List JsonValue)
    (h : sortCameras (allCamerasOf listing) = .ok out) :
    out.Perm (allCamerasOf listing) :=
  sortCameras_perm h

/-- Witness for C2 on a two-file directory. -/
theorem sorted_perm_unsorted_witness :
    sortCameras (allCamerasOf [exFileTX, exFileCA]) = .ok [exRecordCA, exRecordTX]
      ∧ List.Perm [exRecordCA, exRecordTX] (allCamerasOf [exFileTX, exFileCA]) :=
  ⟨rfl, sorted_perm_unsorted [exFileTX, exFileCA] [exRecordCA, exRecordTX] rfl⟩

/-- C3.  Sort correctness: every record of the sorted bundle has a defined
uppercased `(state, city, street)` key, and for every adjacent pair the
first key is lexicographically ≤ the second. -/
theorem sorted_bundle_adjacent_le (listing : List InputFile) (out : List JsonValue)
    (h : sortCameras (allCamerasOf listing) = .ok out) :
    (∀ x ∈ out, ∃ k, sortKey x = .ok k)
      ∧ out.Chain' fun a b => keyLE (keyD a) (keyD b) = true := by
  obtain ⟨keyed, hk, rfl⟩ := sortCameras_ok_elim h
  have hmem : ∀ p ∈ keyed.insertionSort keyPairLE, sortKey p.2 = .ok p.1 := by
    intro p hp
    exact keyedCameras_mem_ok hk p ((keyed.mem_insertionSort keyPairLE).1 hp)
  constructor
  · intro x hx
    obtain ⟨p, hp, rfl⟩ := List.mem_map.1 hx
    exact ⟨p.1, hmem p hp⟩
  · have hsorted : (keyed.insertionSort keyPairLE).Sorted keyPairLE :=
      List.sorted_insertionSort keyPairLE keyed
    have hpw : (keyed.insertionSort keyPairLE).Pairwise
        (fun p q => keyLE (keyD p.2) (keyD q.2) = true) := by
      refine hsorted.imp_of_mem ?_
      intro p q hp hq hpq
      have hkp : keyD p.2 = p.1 := by unfold keyD; rw [hmem p hp]
      have hkq : keyD q.2 = q.1 := by unfold keyD; rw [hmem q hq]
      rw [hkp, hkq]
      exact hpq
    exact (List.pairwise_map.2 hpw).chain'

/-- Witness for C3 on a two-file directory. -/
theorem sorted_bundle_adjacent_le_witness :
    sortCameras (allCamerasOf [exFileTX, exFileCA]) = .ok [exRecordCA, exRecordTX]
      ∧ (∀ x ∈ [exRecordCA, exRecordTX], ∃ k, sortKey x = .ok k)
      ∧ List.Chain' (fun a b => keyLE (keyD a) (keyD b) = true)
          [exRecordCA, exRecordTX] :=
  ⟨rfl, sorted_bundle_adjacent_le [exFileTX, exFileCA] [exRecordCA, exRecordTX] rfl⟩

/-- C4.  Stability: restricting the sorted bundle to the records whose
uppercased `(state, city, street)` key equals any fixed `k` yields exactly
the corresponding restriction of the accumulated (file-concatenation)
sequence — equal-key records keep their original relative order. -/
theorem sort_stable (listing : List InputFile) (out : List JsonValue) (k : SortKey)
    (h : sortCameras (allCamerasOf listing) = .ok out) :
    out.filter (fun x => keyD x == k)
      = (allCamerasOf listing).filter (fun x => keyD x == k) := by
  obtain ⟨keyed, hk, rfl⟩ := sortCameras_ok_elim h
  have hcams : keyed.map Prod.snd = allCamerasOf listing := keyedCameras_map_snd hk
  have hkeys : ∀ p ∈ keyed, sortKey p.2 = .ok p.1 := keyedCameras_mem_ok hk
  have hkeyD : ∀ p ∈ keyed, keyD p.2 = p.1 := by
    intro p hp; unfold keyD; rw [hkeys p hp]
  have hmkeyD : ∀ p ∈ keyed.insertionSort keyPairLE, keyD p.2 = p.1 := by
    intro p hp
    exact hkeyD p ((keyed.mem_insertionSort keyPairLE).1 hp)
  -- the equal-key sublist of the original decorated list
  have hcpair : (keyed.filter fun q => q.1 == k).Pairwise keyPairLE := by
    apply List.pairwise_of_forall_mem_list
    intro a ha b hb
    have hak : a.1 = k := eq_of_beq ((List.mem_filter.1 ha).2)
    have hbk : b.1 = k := eq_of_beq ((List.mem_filter.1 hb).2)
    unfold keyPairLE
    rw [hak, hbk]
    exact keyLE_refl k
  have hcsub : List.Sublist (keyed.filter fun q => q.1 == k) (keyed.insertionSort keyPairLE) :=
    List.sublist_insertionSort hcpair (List.filter_sublist keyed)
  -- stability at the decorated level: the filters agree
  have hfilter_eq :
      (keyed.insertionSort keyPairLE).filter (fun q => q.1 == k)
        = keyed.filter fun q => q.1 == k := by
    have hself : (keyed.filter fun q => q.1 == k).filter (fun q => q.1 == k)
        = keyed.filter fun q => q.1 == k :=
      List.filter_eq_self.2 fun a ha => (List.mem_filter.1 ha).2
    have hsub2 : List.Sublist (keyed.filter fun q => q.1 == k)
        ((keyed.insertionSort keyPairLE).filter fun q => q.1 == k) := by
      have := hcsub.filter fun q => q.1 == k
      rwa [hself] at this
    have hperm : ((keyed.insertionSort keyPairLE).filter fun q => q.1 == k).Perm
        (keyed.filter fun q => q.1 == k) :=
      (List.perm_insertionSort keyPairLE keyed).filter _
    exact (hsub2.eq_of_length hperm.length_eq.symm).symm
  -- project to the record level
  rw [← hcams, List.filter_map, List.filter_map]
  have h1 : (keyed.insertionSort keyPairLE).filter ((fun x => keyD x == k) ∘ Prod.snd)
      = (keyed.insertionSort keyPairLE).filter fun q => q.1 == k := by
    apply List.filter_congr
    intro q hq
    simp only [Function.comp_apply, hmkeyD q hq]
  have h2 : keyed.filter ((fun x => keyD x == k) ∘ Prod.snd)
      = keyed.filter fun q => q.1 == k := by
    apply List.filter_congr
    intro q hq
    simp only [Function.comp_apply, hkeyD q hq]
  rw [h1, h2, hfilter_eq]

/-- Witness for C4 on a two-file directory, at the key of the Texas
record. -/
theorem sort_stable_witness :
    sortCameras (allCamerasOf [exFileTX, exFileCA]) = .ok [exRecordCA, exRecordTX]
      ∧ List.filter (fun x => keyD x == ("TX", "AUSTIN", "MAIN")) [exRecordCA, exRecordTX]
        = List.filter (fun x => keyD x == ("TX", "AUSTIN", "MAIN"))
            (allCamerasOf [exFileTX, exFileCA]) :=
  ⟨rfl, sort_stable [exFileTX, exFileCA] [exRecordCA, exRecordTX] ("TX", "AUSTIN", "MAIN") rfl⟩

/-- C5.  Fault isolation: if among the candidates one file is malformed
(parse failure) or lacks the `feeds[0].staticAlerts` structure while every
other candidate is valid (its extraction succeeds, and its records admit
sort keys), then the run exits 0, the bad file's diagnostic is logged, the
bad file contributes nothing, and both bundles hold exactly the valid
files' records (the sorted one as a permutation). -/
theorem fault_isolation (listing pre post : List InputFile) (bad : InputFile)
    (hsplit : sortedCandidates listing = pre ++ bad :: post)
    (hbad : processFile bad = .loadError ∨ processFile bad = .noFeeds
      ∨ processFile bad = .noStaticAlerts)
    (hkeys : ∀ c ∈ allCamerasOf listing, ∃ k, sortKey c = .ok k) :
    mainExitCode listing = 0
      ∧ allCamerasOf listing = ((pre ++ post).map extractRecords).flatten
      ∧ diagnosticOf (processFile bad) (regionNameOf bad.name)
          ∈ (loopResult listing).logs
      ∧ ∃ out, sortCameras (allCamerasOf listing) = .ok out
          ∧ out.Perm (allCamerasOf listing) := by
  have hbadrec : extractRecords bad = [] := by
    unfold extractRecords
    rcases hbad with hb | hb | hb <;> rw [hb]
  have hflat : allCamerasOf listing = ((pre ++ post).map extractRecords).flatten := by
    rw [allCamerasOf_eq_flatten, hsplit]
    simp [hbadrec]
  obtain ⟨keyed, hkeyed⟩ := keyedCameras_isOk hkeys
  have hsort : sortCameras (allCamerasOf listing)
      = .ok ((keyed.insertionSort keyPairLE).map Prod.snd) := by
    unfold sortCameras
    rw [hkeyed]
  refine ⟨?_, hflat, ?_, ?_⟩
  · have : sortCameras (loopResult listing).allCameras
        = .ok ((keyed.insertionSort keyPairLE).map Prod.snd) := hsort
    simp [mainExitCode, rebuildBundles, this]
  · unfold loopResult
    rw [foldl_loopStep_logs, hsplit]
    simp
  · exact ⟨_, hsort, sortCameras_perm hsort⟩

/-- Witness for C5: two valid files and one malformed file. -/
theorem fault_isolation_witness :
    mainExitCode [exFileTX, exFileBad, exFileCA] = 0
      ∧ allCamerasOf [exFileTX, exFileBad, exFileCA]
          = (([exFileCA, exFileTX] ++ ([] : List InputFile)).map extractRecords).flatten
      ∧ diagnosticOf (processFile exFileBad) (regionNameOf exFileBad.name)
          ∈ (loopResult [exFileTX, exFileBad, exFileCA]).logs
      ∧ ∃ out, sortCameras (allCamerasOf [exFileTX, exFileBad, exFileCA]) = .ok out
          ∧ out.Perm (allCamerasOf [exFileTX, exFileBad, exFileCA]) :=
  fault_isolation [exFileTX, exFileBad, exFileCA] [exFileCA, exFileTX] [] exFileBad
    rfl (Or.inl rfl)
    (by
      intro c hc
      have h0 : allCamerasOf [exFileTX, exFileBad, exFileCA]
          = [exRecordCA, exRecordTX] := rfl
      rw [h0] at hc
      rcases List.mem_cons.1 hc with rfl | hc
      · exact ⟨("CA", "LA", "1ST"), rfl⟩
      · rcases List.mem_cons.1 hc with rfl | hc
        · exact ⟨("TX", "AUSTIN", "MAIN"), rfl⟩
        · cases hc)

theorem containsSub_iff (needle : List Char) :
    ∀ hay, containsSub needle hay = true ↔ ∃ p q, hay = p ++ needle ++ q := by
  intro hay
  induction hay with
  | nil =>
    simp only [containsSub, List.isEmpty_iff]
    constructor
    · rintro rfl; exact ⟨[], [], rfl⟩
    · rintro ⟨p, q, h⟩
      obtain ⟨h1, h2⟩ := List.append_eq_nil.1 h.symm
      exact (List.append_eq_nil.1 h1).2
  | cons c rest ih =>
    simp only [containsSub, Bool.or_eq_true, ih, List.isPrefixOf_iff_prefix]
    constructor
    · rintro (hpre | ⟨p, q, rfl⟩)
      · obtain ⟨t, ht⟩ := hpre
        exact ⟨[], t, by simp [← ht]⟩
      · exact ⟨c :: p, q, rfl⟩
    · rintro ⟨p, q, hpq⟩
      cases p with
      | nil =>
        left
        exact ⟨q, by simpa using hpq.symm⟩
      | cons x xs =>
        right
        simp only [List.cons_append, List.cons.injEq] at hpq
        obtain ⟨rfl, rfl⟩ := hpq
        exact ⟨xs, q, rfl⟩

theorem matchesGlob_iff (name : String) :
    matchesGlob name = true
      ↔ ∃ mid, name = "Camera_Database_" ++ mid ++ ".json" := by
  unfold matchesGlob
  rw [Bool.and_eq_true, List.isPrefixOf_iff_prefix, List.isSuffixOf_iff_suffix]
  have h16 : ("Camera_Database_".data).length = 16 := rfl
  constructor
  · rintro ⟨⟨t, ht⟩, ⟨s, hs⟩⟩
    have hdrop : name.data.drop 16 = t := by
      rw [← ht, ← h16, List.drop_left]
    refine ⟨⟨s⟩, String.ext ?_⟩
    rw [String.data_append, String.data_append, ← ht]
    rw [hdrop] at hs
    rw [← hs, List.append_assoc]
  · rintro ⟨mid, rfl⟩
    have hdata : ("Camera_Database_" ++ mid ++ ".json").data
        = "Camera_Database_".data ++ (mid.data ++ ".json".data) := by
      rw [String.data_append, String.data_append, List.append_assoc]
    constructor
    · exact ⟨mid.data ++ ".json".data, hdata.symm⟩
    · refine ⟨mid.data, ?_⟩
      rw [hdata, ← h16, List.drop_left]

/-- C6.  Discovery: a file is a candidate input exactly when it is in the
directory listing, its name matches the glob `Camera_Database_*.json`, and
its name does not contain the substring `Bundle`; the processed list has
the same members; in particular the two bundle outputs are never treated
as regional inputs. -/
theorem candidate_discovery (listing : List InputFile) (f : InputFile) :
    (f ∈ candidateFiles listing
        ↔ f ∈ listing
          ∧ (∃ mid, f.name = "Camera_Database_" ++ mid ++ ".json")
          ∧ ¬ ∃ p q, f.name.data = p ++ "Bundle".data ++ q)
      ∧ (f ∈ sortedCandidates listing ↔ f ∈ candidateFiles listing)
      ∧ (f.name = "Camera_Database_Bundle.json" → f ∉ candidateFiles listing)
      ∧ (f.name = "Camera_Database_Bundle_Sorted.json" → f ∉ candidateFiles listing) := by
  have hmem : f ∈ candidateFiles listing
      ↔ f ∈ listing ∧ matchesGlob f.name = true
        ∧ containsSub "Bundle".data f.name.data = false := by
    unfold candidateFiles
    rw [List.mem_filter, List.mem_filter]
    simp [and_assoc, Bool.not_eq_true']
  have hbool : containsSub "Bundle".data f.name.data = false
      ↔ ¬ ∃ p q, f.name.data = p ++ "Bundle".data ++ q := by
    rw [← containsSub_iff]
    simp
  refine ⟨by rw [hmem, matchesGlob_iff, hbool], ?_, ?_, ?_⟩
  · exact (candidateFiles listing).mem_insertionSort fileNameLE
  · intro hname hin
    rw [hmem] at hin
    have := hin.2.2
    rw [hname] at this
    exact absurd this (by decide)
  · intro hname hin
    rw [hmem] at hin
    have := hin.2.2
    rw [hname] at this
    exact absurd this (by decide)

/-- Witness for C6: a bundle file in the listing is excluded. -/
theorem candidate_discovery_witness :
    (exFileBundle ∈ candidateFiles [exFileTX, exFileBundle]
        ↔ exFileBundle ∈ [exFileTX, exFileBundle]
          ∧ (∃ mid, exFileBundle.name = "Camera_Database_" ++ mid ++ ".json")
          ∧ ¬ ∃ p q, exFileBundle.name.data = p ++ "Bundle".data ++ q)
      ∧ (exFileBundle ∈ sortedCandidates [exFileTX, exFileBundle]
          ↔ exFileBundle ∈ candidateFiles [exFileTX, exFileBundle])
      ∧ (exFileBundle.name = "Camera_Database_Bundle.json"
          → exFileBundle ∉ candidateFiles [exFileTX, exFileBundle])
      ∧ (exFileBundle.name = "Camera_Database_Bundle_Sorted.json"
          → exFileBundle ∉ candidateFiles [exFileTX, exFileBundle]) :=
  candidate_discovery [exFileTX, exFileBundle] exFileBundle

instance : IsTotal InputFile fileNameLE :=
  ⟨fun a b => by
    unfold fileNameLE
    rw [strLE_iff, strLE_iff]
    exact le_total a.name b.name⟩

instance : IsTrans InputFile fileNameLE :=
  ⟨fun a b c hab hbc => by
    unfold fileNameLE at hab hbc ⊢
    rw [strLE_iff] at hab hbc ⊢
    exact le_trans hab hbc⟩

theorem sorted_nodup_names_unique :
    ∀ {l₁ l₂ : List InputFile}, l₁.Perm l₂ →
      l₁.Sorted fileNameLE → l₂.Sorted fileNameLE →
      (l₁.map InputFile.name).Nodup → l₁ = l₂ := by
  intro l₁
  induction l₁ with
  | nil =>
    intro l₂ hp _ _ _
    exact (hp.symm.eq_nil).symm
  | cons a t₁ ih =>
    intro l₂ hp hs₁ hs₂ hnd
    cases l₂ with
    | nil => simp at hp
    | cons b t₂ =>
      have hb_mem : b ∈ a :: t₁ := hp.mem_iff.2 (List.mem_cons_self b t₂)
      have ha_mem : a ∈ b :: t₂ := hp.mem_iff.1 (List.mem_cons_self a t₁)
      have hs₁' := List.sorted_cons.1 hs₁
      have hs₂' := List.sorted_cons.1 hs₂
      have hab : a = b := by
        rcases List.mem_cons.1 hb_mem with rfl | hbt
        · rfl
        · exfalso
          have h1 : strLE a.name b.name = true := hs₁'.1 b hbt
          have h2 : a.name = b.name := by
            rcases List.mem_cons.1 ha_mem with rfl | hat
            · rfl
            · have h2' : strLE b.name a.name = true := hs₂'.1 a hat
              exact le_antisymm ((strLE_iff _ _).1 h1) ((strLE_iff _ _).1 h2')
          have hmemmap : a.name ∈ t₁.map InputFile.name :=
            h2 ▸ List.mem_map_of_mem InputFile.name hbt
          exact (List.nodup_cons.1 hnd).1 hmemmap
      subst hab
      rw [ih hp.cons_inv hs₁'.2 hs₂'.2 (List.nodup_cons.1 hnd).2]

theorem sortedCandidates_perm_invariant {l₁ l₂ : List InputFile}
    (hperm : l₁.Perm l₂) (hnd : (l₁.map InputFile.name).Nodup) :
    sortedCandidates l₁ = sortedCandidates l₂ := by
  have hcand : (candidateFiles l₁).Perm (candidateFiles l₂) :=
    (hperm.filter _).filter _
  have hsub : (candidateFiles l₁).Sublist l₁ := by
    unfold candidateFiles
    exact (List.filter_sublist _).trans (List.filter_sublist _)
  have hndc : ((candidateFiles l₁).map InputFile.name).Nodup :=
    hnd.sublist (hsub.map InputFile.name)
  have hnds : ((sortedCandidates l₁).map InputFile.name).Nodup := by
    have hp : ((sortedCandidates l₁).map InputFile.name).Perm
        ((candidateFiles l₁).map InputFile.name) :=
      (List.perm_insertionSort fileNameLE (candidateFiles l₁)).map InputFile.name
    exact hp.nodup_iff.2 hndc
  apply sorted_nodup_names_unique ?_ ?_ ?_ hnds
  · exact (List.perm_insertionSort fileNameLE (candidateFiles l₁)).trans
      (hcand.trans (List.perm_insertionSort fileNameLE (candidateFiles l₂)).symm)
  · exact List.sorted_insertionSort fileNameLE (candidateFiles l₁)
  · exact List.sorted_insertionSort fileNameLE (candidateFiles l₂)

/-- C7.  Determinism: the rebuild is a function of the set of input files.
For any two directory enumerations that list the same files (in any
order; filenames in a directory are distinct), the whole run trace —
both written bundle documents, the diagnostics, and the result — is
identical, and so are the exit codes.  Serialization of equal documents is
byte-identical. -/
theorem rebuild_deterministic (l₁ l₂ : List InputFile)
    (hperm : l₁.Perm l₂) (hnd : (l₁.map InputFile.name).Nodup) :
    rebuildBundles l₁ = rebuildBundles l₂ ∧ mainExitCode l₁ = mainExitCode l₂ := by
  have hloop : loopResult l₁ = loopResult l₂ := by
    unfold loopResult
    rw [sortedCandidates_perm_invariant hperm hnd]
  constructor
  · unfold rebuildBundles
    rw [hloop]
  · unfold mainExitCode rebuildBundles
    rw [hloop]

/-- Witness for C7: the same two files listed in both orders. -/
theorem rebuild_deterministic_witness :
    rebuildBundles [exFileTX, exFileCA] = rebuildBundles [exFileCA, exFileTX]
      ∧ mainExitCode [exFileTX, exFileCA] = mainExitCode [exFileCA, exFileTX] :=
  rebuild_deterministic [exFileTX, exFileCA] [exFileCA, exFileTX]
    (List.Perm.swap exFileCA exFileTX []) (by decide)

/-- C8.  Exit status: when `rebuild_bundles` returns, the process exits 0
and no fatal error is logged; when an uncaught exception propagates to the
top level, the fatal error is logged and the exit status is 1 (non-zero). -/
theorem exit_status (listing : List InputFile) :
    ((∃ n, (rebuildBundles listing).result = .ok n)
        → mainExitCode listing = 0 ∧ fatalErrorLogged listing = false)
      ∧ ∀ e, (rebuildBundles listing).result = .error e
          → mainExitCode listing ≠ 0 ∧ mainExitCode listing = 1
            ∧ fatalErrorLogged listing = true := by
  unfold mainExitCode fatalErrorLogged
  constructor
  · rintro ⟨n, hn⟩
    rw [hn]
    exact ⟨rfl, rfl⟩
  · intro e he
    rw [he]
    exact ⟨one_ne_zero, rfl, rfl⟩

/-- Witness for C8: a successful run and a failing run. -/
theorem exit_status_witness :
    (mainExitCode [exFileTX] = 0 ∧ fatalErrorLogged [exFileTX] = false)
      ∧ (mainExitCode [exFileBadState] ≠ 0 ∧ mainExitCode [exFileBadState] = 1
          ∧ fatalErrorLogged [exFileBadState] = true) :=
  ⟨(exit_status [exFileTX]).1 ⟨1, rfl⟩, (exit_status [exFileBadState]).2 () rfl⟩

theorem keyedCameras_error_of_mem :
    ∀ {cams : List JsonValue} {c : JsonValue}, c ∈ cams → sortKey c = .error () →
      keyedCameras cams = .error () := by
  intro cams
  induction cams with
  | nil => intro c hc _; cases hc
  | cons d ds ih =>
    intro c hc herr
    rcases List.mem_cons.1 hc with rfl | hc
    · unfold keyedCameras
      rw [herr]
    · unfold keyedCameras
      cases hd : sortKey d with
      | error e => cases e; rfl
      | ok k => rw [ih hc herr]

/-- C9.  A record with a present non-string `state`, `city` or `street`
makes the key computation raise: the run exits 1, but only after the
unsorted bundle was already written — the run's writes are exactly the
unsorted bundle (with the full accumulated record list) and the sorted
path is never written.  Only a missing field is defaulted to the empty
string; a present non-string field raises instead. -/
theorem nonstring_key_aborts_after_unsorted_write (listing : List InputFile)
    (c : JsonValue) (fields : List (String × JsonValue)) (k : String) (v : JsonValue)
    (hc : c ∈ allCamerasOf listing)
    (hobj : c = .obj fields)
    (hk : k = "state" ∨ k = "city" ∨ k = "street")
    (hv : lookupField fields k = some v)
    (hvs : ∀ s, v ≠ .str s) :
    mainExitCode listing = 1
      ∧ (rebuildBundles listing).writes
          = [(bundlePath, mkBundle unsortedDescription (allCamerasOf listing))]
      ∧ (∀ w ∈ (rebuildBundles listing).writes, w.1 ≠ sortedBundlePath)
      ∧ ∀ (fs : List (String × JsonValue)) (f : String),
          lookupField fs f = none → pyGetUpper (.obj fs) f = .ok "" := by
  subst hobj
  have hget : pyGetUpper (.obj fields) k = .error () := by
    simp only [pyGetUpper]
    rw [hv]
    cases v with
    | str s => exact absurd rfl (hvs s)
    | null => rfl
    | bool b => rfl
    | num n => rfl
    | arr elems => rfl
    | obj fs => rfl
  have hkey : sortKey (.obj fields) = .error () := by
    rcases hk with rfl | rfl | rfl
    · unfold sortKey
      rw [hget]
    · unfold sortKey
      cases hst : pyGetUpper (.obj fields) "state" with
      | error e => cases e; rfl
      | ok s => rw [hget]
    · unfold sortKey
      cases hst : pyGetUpper (.obj fields) "state" with
      | error e => cases e; rfl
      | ok s =>
        cases hct : pyGetUpper (.obj fields) "city" with
        | error e => cases e; rfl
        | ok t => rw [hget]
  have hkerr : keyedCameras (allCamerasOf listing) = .error () :=
    keyedCameras_error_of_mem hc hkey
  have hsort : sortCameras (allCamerasOf listing) = .error () := by
    unfold sortCameras
    rw [hkerr]
  have hsort' : sortCameras (loopResult listing).allCameras = .error () := hsort
  refine ⟨?_, ?_, ?_, ?_⟩
  · simp [mainExitCode, rebuildBundles, hsort']
  · simp [rebuildBundles, hsort']
    rfl
  · intro w hw
    simp [rebuildBundles, hsort'] at hw
    rw [hw]
    show bundlePath ≠ sortedBundlePath
    decide
  · intro fs f hnone
    simp only [pyGetUpper]
    rw [hnone]

/-- Witness for C9: one file whose single record has `state: 5`. -/
theorem nonstring_key_aborts_witness :
    mainExitCode [exFileBadState] = 1
      ∧ (rebuildBundles [exFileBadState]).writes
          = [(bundlePath, mkBundle unsortedDescription (allCamerasOf [exFileBadState]))]
      ∧ (∀ w ∈ (rebuildBundles [exFileBadState]).writes, w.1 ≠ sortedBundlePath)
      ∧ ∀ (fs : List (String × JsonValue)) (f : String),
          lookupField fs f = none → pyGetUpper (.obj fs) f = .ok "" :=
  nonstring_key_aborts_after_unsorted_write [exFileBadState]
    exRecordBadState [("state", .num 5)] "state" (.num 5)
    (by
      have h0 : allCamerasOf [exFileBadState] = [exRecordBadState] := rfl
      rw [h0]
      exact List.mem_cons_self _ _)
    rfl (Or.inl rfl) rfl
    (fun s h => JsonValue.noConfusion h)

/-- C10.  `staticAlerts` is never validated to be a list: whenever
`feeds[0].staticAlerts` is present and Python can iterate it, each element
of that iterable is appended individually (for a string value, each
character becomes a separate one-character-string record), the file's
extraction succeeds, and a successfully extracted file's region is
recorded as processed. -/
theorem staticAlerts_iterated_not_validated
    (dataFields feedFields : List (String × JsonValue)) (restFeeds : List JsonValue)
    (v : JsonValue) (elems : List JsonValue)
    (hfeeds : lookupField dataFields "feeds" = some (.arr (.obj feedFields :: restFeeds)))
    (hsa : lookupField feedFields "staticAlerts" = some v)
    (hiter : pyIter v = .ok elems) :
    extractData (.obj dataFields) = .added elems
      ∧ (∀ s : String, v = .str s
          → elems = s.data.map fun ch => .str (String.mk [ch]))
      ∧ ∀ (st : LoopState) (f : InputFile) (records : List JsonValue),
          processFile f = .added records
            → (loopStep st f).regionsProcessed
                = st.regionsProcessed ++ [regionNameOf f.name] := by
  have h1 : pyIn "feeds" (.obj dataFields) = .ok true := by
    simp only [pyIn]
    rw [hfeeds]
    rfl
  have h2 : pySubscript (.obj dataFields) "feeds"
      = .ok (.arr (.obj feedFields :: restFeeds)) := by
    simp only [pySubscript]
    rw [hfeeds]
  have h5 : pyIn "staticAlerts" (.obj feedFields) = .ok true := by
    simp only [pyIn]
    rw [hsa]
    rfl
  have h6 : pySubscript (.obj feedFields) "staticAlerts" = .ok v := by
    simp only [pySubscript]
    rw [hsa]
  refine ⟨?_, ?_, ?_⟩
  · unfold extractData
    rw [h1, h2]
    simp only [pyLen, pyIndex0, List.length_cons, gt_iff_lt, Nat.succ_pos, if_true,
      Nat.zero_lt_succ, h5, h6, hiter]
  · rintro s rfl
    unfold pyIter at hiter
    exact (Except.ok.inj hiter).symm
  · intro st f records hproc
    unfold loopStep
    rw [hproc]

/-- Witness for C10: `staticAlerts` is the string `"ab"`; its two
characters become two records. -/
theorem staticAlerts_iterated_witness :
    extractData (.obj [("feeds", .arr [.obj [("staticAlerts", .str "ab")]])])
        = .added [.str "a", .str "b"]
      ∧ (∀ s : String, JsonValue.str "ab" = .str s
          → [JsonValue.str "a", JsonValue.str "b"]
              = s.data.map fun ch => .str (String.mk [ch]))
      ∧ ∀ (st : LoopState) (f : InputFile) (records : List JsonValue),
          processFile f = .added records
            → (loopStep st f).regionsProcessed
                = st.regionsProcessed ++ [regionNameOf f.name] :=
  staticAlerts_iterated_not_validated
    [("feeds", .arr [.obj [("staticAlerts", .str "ab")]])]
    [("staticAlerts", .str "ab")] [] (.str "ab") [.str "a", .str "b"]
    rfl rfl rfl

end CameraBundles
